import Mathlib

/-!
# Verification of the BOM merger pipeline (src/main.py)

Shallow embedding of the spreadsheet-merging script. The script:

* per uploaded file (`src/main.py` lines 40-73): reads the file, trims column
  names, fills missing DESCRIPTION with "" and strips it, fills missing LENGTH
  with "", coerces PART NUMBER to string and strips it, coerces QTY. to a
  number with unparseable values becoming 0, appends the cleaned frame to
  `all_dataframes`, and then (still inside the same `try`) re-reads the file
  for display; any exception records the file name in `error_files`;
* concatenates the cleaned frames (line 80), groups by (DESCRIPTION, LENGTH)
  aggregating QTY. by sum and PART NUMBER by first (lines 89-98), drops rows
  with blank DESCRIPTION (line 102), projects to the four output columns
  (lines 105-106) and sorts by (DESCRIPTION, LENGTH) (lines 109-111).

Cell values are modelled as strings (description, length, part number) and
exact integers (quantity); raw cells may be absent (`Option`), and a raw
quantity may also be a non-numeric value that `pd.to_numeric(errors="coerce")`
turns into NaN, which `fillna(0)` then turns into 0. Columns other than the
four named ones pass through the cleaning untouched and are dropped by the
final projection, so they are not modelled.
-/

namespace BOM

/-- An output-shaped row: the four semantically relevant columns after
normalization (PART NUMBER, DESCRIPTION, LENGTH, QTY.). -/
structure Row where
  partNumber : String
  description : String
  length : String
  qty : Int
deriving DecidableEq, Repr

/-- A raw QTY. cell: a numeric value, a non-numeric value (which
`pd.to_numeric(errors="coerce")` maps to NaN), or a missing cell. -/
inductive RawQty where
  | num (n : Int)
  | nonNumeric (s : String)
  | missing
deriving DecidableEq, Repr

/-- A raw input row: each of the four cells may be absent (null). -/
structure RawRow where
  description : Option String
  length : Option String
  partNumber : Option String
  qty : RawQty
deriving DecidableEq, Repr

/-- Python `str.strip()`: remove whitespace characters from both ends of a
string (modelled on the string's character list so that it computes by
kernel reduction). -/
def pyStrip (s : String) : String :=
  String.mk (((s.data.dropWhile Char.isWhitespace).reverse.dropWhile
    Char.isWhitespace).reverse)

/-- Row cleaning, `src/main.py` lines 49-56:
`DESCRIPTION.fillna("").str.strip()`, `LENGTH.fillna("")`,
`PART NUMBER.astype(str).str.strip()` (a null cell is the float NaN, and
`astype(str)` renders it as the literal string "nan"),
`pd.to_numeric(QTY., errors="coerce").fillna(0)`. -/
def normalizeRow (r : RawRow) : Row :=
  { description := pyStrip (r.description.getD "")
    length := r.length.getD ""
    partNumber := pyStrip (match r.partNumber with
      | none => "nan"
      | some s => s)
    qty := match r.qty with
      | RawQty.num n => n
      | RawQty.nonNumeric _ => 0
      | RawQty.missing => 0 }

/-- One uploaded file as the per-file loop sees it.  `firstRead` is `none`
when `pd.read_excel` fails; the `has…` flags record whether each required
column is present after column-name trimming; `secondReadOk` records whether
the debug block (lines 60-69: `st.subheader`, a second `pd.read_excel`,
`st.dataframe`) that runs after the cleaned frame was already appended
raises an exception. -/
structure RawFile where
  name : String
  firstRead : Option (List RawRow)
  hasDescription : Bool
  hasLength : Bool
  hasPartNumber : Bool
  hasQty : Bool
  secondReadOk : Bool
deriving DecidableEq, Repr

/-- One iteration of the upload loop (`src/main.py` lines 40-73).  Returns
the cleaned rows appended to `all_dataframes` (if any) and whether the file
name was appended to `error_files`.  Reading failure or a missing required
column raises before the append, so no rows are contributed; the debug
re-read raises after the append, so the rows stay even though the name is
recorded as an error. -/
def processFile (f : RawFile) : Option (List Row) × Bool :=
  match f.firstRead with
  | none => (none, true)
  | some raws =>
    if f.hasDescription && f.hasLength && f.hasPartNumber && f.hasQty then
      (some (raws.map normalizeRow), !f.secondReadOk)
    else
      (none, true)

/-- The whole upload loop: fold `processFile` over the files in upload order,
accumulating `all_dataframes` and `error_files`. -/
def processFiles (files : List RawFile) : List (List Row) × List String :=
  files.foldl
    (fun acc f =>
      let r := processFile f
      (acc.1 ++ (match r.1 with
        | some rows => [rows]
        | none => []),
       acc.2 ++ (if r.2 then [f.name] else [])))
    ([], [])

/-- The grouping key: the (DESCRIPTION, LENGTH) pair. -/
def key (r : Row) : String × String := (r.description, r.length)

/-- The distinct (DESCRIPTION, LENGTH) keys of a row list, each at its first
occurrence: the head's key, then the distinct keys of the tail with the
head's key removed. -/
def groupKeys : List Row → List (String × String)
  | [] => []
  | r :: rs => key r :: (groupKeys rs).filter fun k => decide (k ≠ key r)

/-- `QTY.: "sum"` aggregation (line 93): the sum of the quantities of the
rows sharing key `k`. -/
def groupQty (rows : List Row) (k : String × String) : Int :=
  ((rows.filter fun r => decide (key r = k)).map Row.qty).sum

/-- `PART NUMBER: "first"` aggregation (line 94): the part number of the
first row sharing key `k` (after normalization part numbers are plain
strings, never null, so pandas "first" is the first member row). -/
def firstPart (rows : List Row) (k : String × String) : String :=
  match rows.find? (fun r => decide (key r = k)) with
  | some r => r.partNumber
  | none => ""

/-- The aggregated row that the groupby emits for key `k`. -/
def buildRow (rows : List Row) (k : String × String) : Row :=
  { partNumber := firstPart rows k
    description := k.1
    length := k.2
    qty := groupQty rows k }

/-- Strict lexicographic order on strings by code point, as Python compares
strings (stated on the character list so that it computes by kernel
reduction). -/
def strLt (a b : String) : Prop := List.Lex (· < ·) a.data b.data

instance : DecidableRel strLt := fun a b =>
  inferInstanceAs (Decidable (List.Lex (· < ·) a.data b.data))

/-- The corresponding non-strict order. -/
def strLE (a b : String) : Prop := ¬ strLt b a

instance : DecidableRel strLE := fun a b =>
  inferInstanceAs (Decidable (¬ strLt b a))

/-- Lexicographic order on (DESCRIPTION, LENGTH) keys, the order
`sort_values(by=["DESCRIPTION", "LENGTH"])` uses. -/
def keyLE (a b : String × String) : Prop :=
  strLt a.1 b.1 ∨ (a.1 = b.1 ∧ strLE a.2 b.2)

instance : DecidableRel keyLE := fun a b =>
  inferInstanceAs (Decidable (strLt a.1 b.1 ∨ (a.1 = b.1 ∧ strLE a.2 b.2)))

/-- Row comparison by key. -/
def rowLE (r s : Row) : Prop := keyLE (key r) (key s)

instance : DecidableRel rowLE := fun r s =>
  inferInstanceAs (Decidable (keyLE (key r) (key s)))

/-- The merge (`src/main.py` lines 89-111): group the combined table by
(DESCRIPTION, LENGTH), sum QTY. and take the first PART NUMBER per group,
drop groups with blank description, and sort by (DESCRIPTION, LENGTH). -/
def mergedRows (combined : List Row) : List Row :=
  List.insertionSort rowLE
    (((groupKeys combined).map (buildRow combined)).filter
      fun r => decide (r.description ≠ ""))

/-- The whole run (`src/main.py` lines 33-124): process every file; if no
frame was appended, no merge is attempted and no artifact is produced
(`none`); otherwise merge the concatenation of all appended frames.  The
second component is `error_files`. -/
def runPipeline (files : List RawFile) : Option (List Row) × List String :=
  let p := processFiles files
  match p.1 with
  | [] => (none, p.2)
  | dfs => (some (mergedRows dfs.flatten), p.2)

/-- Replace every QTY. cell of a file by `q`, leaving everything else as it
is (used to state that the error behaviour of the per-file step does not
depend on quantity cells). -/
def withQty (q : RawQty) (f : RawFile) : RawFile :=
  { f with firstRead := f.firstRead.map (List.map fun rr => { rr with qty := q }) }

/-! ## Concrete values used by the witnesses (spec section 8 scenarios) -/

/-- File A row of the spec scenario. -/
def exRowBr1 : Row := ⟨"P1", "Bracket", "10", 5⟩

/-- A row whose description is blank after normalization. -/
def exRowBlank : Row := ⟨"P9", "", "7", 4⟩

/-- File B first row of the spec scenario. -/
def exRowBr2 : Row := ⟨"P1", "Bracket", "10", 3⟩

/-- File B second row of the spec scenario. -/
def exRowScrew : Row := ⟨"P2", "Screw", "", 100⟩

/-- A combined table: the spec scenario plus a blank-description row. -/
def exCombined : List Row := [exRowBr1, exRowBlank, exRowBr2, exRowScrew]

/-- The merged row the scenario expects for ("Bracket", "10"). -/
def exMergedBracket : Row := ⟨"P1", "Bracket", "10", 8⟩

/-- A parseable file with all four columns whose display re-read raises. -/
def exFileDisplayCrash : RawFile :=
  ⟨"boards.xlsx", some [⟨some "Bracket", some "10", some "P1", RawQty.num 5⟩],
   true, true, true, true, false⟩

/-- A well-behaved file. -/
def exFileOk : RawFile :=
  ⟨"parts.xlsx", some [⟨some "Bolt", some "3", some "P3", RawQty.num 7⟩],
   true, true, true, true, true⟩

/-- A file `pd.read_excel` cannot parse. -/
def exFileUnreadable : RawFile :=
  ⟨"corrupt.xlsx", none, true, true, true, true, true⟩

/-- A raw row with a whitespace-only description. -/
def exRawBlankDesc : RawRow := ⟨some "   ", some "10", some "P7", RawQty.num 4⟩

/-- A raw row with a missing quantity. -/
def exRawMissingQty : RawRow := ⟨some "Bolt", some "3", some "P3", RawQty.missing⟩

/-- A raw row with every cell absent or unparseable. -/
def exRawAllNone : RawRow := ⟨none, none, none, RawQty.nonNumeric "abc"⟩

/-- A raw row with a missing part number. -/
def exRawNoPart : RawRow := ⟨some "Widget", some "5", none, RawQty.num 2⟩

/-! ## Order facts about the sort key -/

theorem strLt_trans {a b c : String} (h₁ : strLt a b) (h₂ : strLt b c) :
    strLt a c :=
  (inferInstanceAs (IsTrans (List Char) (List.Lex (· < ·)))).trans
    a.data b.data c.data h₁ h₂

theorem strLt_asymm {a b : String} (h : strLt a b) : ¬ strLt b a :=
  (inferInstanceAs (IsAsymm (List Char) (List.Lex (· < ·)))).asymm
    a.data b.data h

theorem strLt_trichotomy (a b : String) : strLt a b ∨ a = b ∨ strLt b a := by
  rcases (inferInstanceAs
      (IsTrichotomous (List Char) (List.Lex (· < ·)))).trichotomous
      a.data b.data with h | h | h
  · exact Or.inl h
  · exact Or.inr (Or.inl (String.ext h))
  · exact Or.inr (Or.inr h)

instance : IsTotal (String × String) keyLE := by
  constructor
  intro a b
  rcases strLt_trichotomy a.1 b.1 with h | h | h
  · exact Or.inl (Or.inl h)
  · by_cases h2 : strLt b.2 a.2
    · exact Or.inr (Or.inr ⟨h.symm, strLt_asymm h2⟩)
    · exact Or.inl (Or.inr ⟨h, h2⟩)
  · exact Or.inr (Or.inl h)

instance : IsTrans (String × String) keyLE := by
  constructor
  intro a b c hab hbc
  rcases hab with hab | ⟨hab, hab2⟩
  · rcases hbc with hbc | ⟨hbc, _⟩
    · exact Or.inl (strLt_trans hab hbc)
    · exact Or.inl (hbc ▸ hab)
  · rcases hbc with hbc | ⟨hbc, hbc2⟩
    · exact Or.inl (hab ▸ hbc)
    · refine Or.inr ⟨hab.trans hbc, ?_⟩
      intro hca
      rcases strLt_trichotomy a.2 b.2 with h | h | h
      · exact hbc2 (strLt_trans hca h)
      · exact hbc2 (h ▸ hca)
      · exact hab2 h

instance : IsTotal Row rowLE :=
  ⟨fun a b => IsTotal.total (r := keyLE) (key a) (key b)⟩

instance : IsTrans Row rowLE :=
  ⟨fun _ _ _ hab hbc => Trans.trans (r := keyLE) (s := keyLE) hab hbc⟩

/-! ## Facts about grouping -/

/-- A key is produced by `groupKeys` exactly when some row carries it. -/
theorem mem_groupKeys {rows : List Row} {k : String × String} :
    k ∈ groupKeys rows ↔ k ∈ rows.map key := by
  induction rows with
  | nil => simp [groupKeys]
  | cons r rs ih =>
    by_cases h : k = key r <;>
      simp [groupKeys, List.mem_filter, ih, h]

/-- `groupKeys` never repeats a key. -/
theorem nodup_groupKeys (rows : List Row) : (groupKeys rows).Nodup := by
  induction rows with
  | nil => exact List.nodup_nil
  | cons r rs ih =>
    refine List.Nodup.cons ?_ (List.Nodup.filter _ ih)
    intro hmem
    have := List.of_mem_filter hmem
    simp at this

theorem groupQty_nil (k : String × String) : groupQty [] k = 0 := rfl

theorem groupQty_cons (r : Row) (rs : List Row) (k : String × String) :
    groupQty (r :: rs) k = (if key r = k then r.qty else 0) + groupQty rs k := by
  by_cases h : key r = k <;>
    simp [groupQty, List.filter_cons, h]

/-- A key carried by no row contributes a zero group sum. -/
theorem groupQty_eq_zero_of_not_mem {rows : List Row} {k : String × String}
    (h : k ∉ rows.map key) : groupQty rows k = 0 := by
  induction rows with
  | nil => rfl
  | cons r rs ih =>
    simp only [List.map_cons, List.mem_cons] at h
    push_neg at h
    rw [groupQty_cons, if_neg (fun hh => h.1 hh.symm), ih h.2]
    simp

theorem sum_map_ite_of_not_mem {ks : List (String × String)}
    {k : String × String} (v : Int) (h : k ∉ ks) :
    (ks.map fun x => if k = x then v else 0).sum = 0 := by
  induction ks with
  | nil => rfl
  | cons x xs ih =>
    simp only [List.mem_cons] at h
    push_neg at h
    simp [if_neg h.1, ih h.2]

theorem sum_map_ite_eq {ks : List (String × String)} {k : String × String}
    (v : Int) (hk : k ∈ ks) (hnd : ks.Nodup) :
    (ks.map fun x => if k = x then v else 0).sum = v := by
  induction ks with
  | nil => cases hk
  | cons x xs ih =>
    rcases List.mem_cons.mp hk with h | h
    · have hnot : k ∉ xs := h ▸ (List.nodup_cons.mp hnd).1
      simp [if_pos h, sum_map_ite_of_not_mem v hnot]
    · have hne : k ≠ x := by
        rintro rfl
        exact (List.nodup_cons.mp hnd).1 h
      simp [if_neg hne, ih h (List.nodup_cons.mp hnd).2]

/-- Partition of the total quantity: summing the group sums over any
duplicate-free key list covering the rows gives the total of all row
quantities. -/
theorem sum_groupQty_of_cover (rows : List Row) (ks : List (String × String))
    (hnd : ks.Nodup) (hcov : ∀ r ∈ rows, key r ∈ ks) :
    (ks.map (groupQty rows)).sum = (rows.map Row.qty).sum := by
  induction rows with
  | nil =>
    have h0 : ks.map (groupQty []) = ks.map fun _ => (0 : Int) :=
      List.map_congr_left fun k _ => groupQty_nil k
    rw [h0]
    simp
  | cons r rs ih =>
    have hrw : ks.map (groupQty (r :: rs))
        = ks.map fun k => (if key r = k then r.qty else 0) + groupQty rs k :=
      List.map_congr_left fun k _ => groupQty_cons r rs k
    rw [hrw, List.sum_map_add,
      sum_map_ite_eq r.qty (hcov r (List.mem_cons_self r rs)) hnd,
      ih fun x hx => hcov x (List.mem_cons_of_mem r hx)]
    simp

/-- `groupQty` ignores rows filtered out by a predicate that holds on every
row of the key being summed. -/
theorem groupQty_filter (rows : List Row) (p : Row → Bool) (k : String × String)
    (hp : ∀ r, key r = k → p r = true) :
    groupQty (rows.filter p) k = groupQty rows k := by
  unfold groupQty
  rw [List.filter_filter]
  refine congrArg _ (congrArg _ (List.filter_congr fun a _ => ?_))
  by_cases h : key a = k
  · simp [h, hp a h]
  · simp [h]

/-! ## Facts about the merged output -/

theorem key_buildRow (rows : List Row) (k : String × String) :
    key (buildRow rows k) = k := rfl

/-- `mergedRows` with the blank-description filter pushed onto the key
list. -/
theorem mergedRows_eq (rows : List Row) :
    mergedRows rows = List.insertionSort rowLE
      (((groupKeys rows).filter fun k => decide (k.1 ≠ "")).map
        (buildRow rows)) := by
  unfold mergedRows
  rw [List.filter_map]
  rfl

theorem mergedRows_perm (rows : List Row) :
    (mergedRows rows).Perm
      (((groupKeys rows).filter fun k => decide (k.1 ≠ "")).map
        (buildRow rows)) := by
  rw [mergedRows_eq]
  exact List.perm_insertionSort _ _

theorem mem_mergedRows {rows : List Row} {m : Row} :
    m ∈ mergedRows rows ↔
      ∃ k ∈ (groupKeys rows).filter fun k => decide (k.1 ≠ ""),
        m = buildRow rows k := by
  rw [(mergedRows_perm rows).mem_iff, List.mem_map]
  constructor
  · rintro ⟨k, hk, rfl⟩
    exact ⟨k, hk, rfl⟩
  · rintro ⟨k, hk, rfl⟩
    exact ⟨k, hk, rfl⟩

theorem sorted_mergedRows (rows : List Row) :
    List.Sorted rowLE (mergedRows rows) := by
  unfold mergedRows
  exact List.sorted_insertionSort rowLE _

theorem map_key_mergedRows_perm (rows : List Row) :
    ((mergedRows rows).map key).Perm
      ((groupKeys rows).filter fun k => decide (k.1 ≠ "")) := by
  have h := (mergedRows_perm rows).map key
  rw [List.map_map] at h
  have h2 : ((groupKeys rows).filter fun k => decide (k.1 ≠ "")).map
      (key ∘ buildRow rows)
      = (groupKeys rows).filter fun k => decide (k.1 ≠ "") := by
    rw [show (key ∘ buildRow rows) = id from funext fun k => key_buildRow rows k,
      List.map_id]
  rw [h2] at h
  exact h

theorem nodup_map_key_mergedRows (rows : List Row) :
    ((mergedRows rows).map key).Nodup :=
  ((map_key_mergedRows_perm rows).nodup_iff).mpr
    (List.Nodup.filter _ (nodup_groupKeys rows))

theorem desc_ne_of_mem_mergedRows {rows : List Row} {m : Row}
    (h : m ∈ mergedRows rows) : m.description ≠ "" := by
  rcases mem_mergedRows.mp h with ⟨k, hk, rfl⟩
  have hp := List.of_mem_filter hk
  exact of_decide_eq_true hp

/-- C1: every merged row's quantity equals the arithmetic sum of the
quantities of the Combined Table rows sharing its (description, length)
key; every non-blank-description key present in the Combined Table has a
merged row; and the sum of all output quantities equals the sum of all
input quantities over rows with non-blank description. -/
theorem merged_quantity_conservation (combined : List Row) :
    (∀ m ∈ mergedRows combined, m.qty = groupQty combined (key m))
  ∧ (∀ r ∈ combined, r.description ≠ "" →
      ∃ m ∈ mergedRows combined, key m = key r)
  ∧ ((mergedRows combined).map Row.qty).sum
      = ((combined.filter fun r => decide (r.description ≠ "")).map
          Row.qty).sum := by
  refine ⟨?_, ?_, ?_⟩
  · intro m hm
    rcases mem_mergedRows.mp hm with ⟨k, _, rfl⟩
    rfl
  · intro r hr hdesc
    refine ⟨buildRow combined (key r), ?_, key_buildRow _ _⟩
    refine mem_mergedRows.mpr ⟨key r, ?_, rfl⟩
    exact List.mem_filter.mpr
      ⟨mem_groupKeys.mpr (List.mem_map_of_mem key hr),
       decide_eq_true hdesc⟩
  · have h1 := ((mergedRows_perm combined).map Row.qty).sum_eq
    rw [h1, List.map_map]
    have h2 : ((groupKeys combined).filter fun k => decide (k.1 ≠ "")).map
        (Row.qty ∘ buildRow combined)
        = ((groupKeys combined).filter fun k => decide (k.1 ≠ "")).map
          (groupQty combined) := rfl
    rw [h2]
    have h3 : ((groupKeys combined).filter fun k => decide (k.1 ≠ "")).map
        (groupQty combined)
        = ((groupKeys combined).filter fun k => decide (k.1 ≠ "")).map
          (groupQty (combined.filter fun r => decide (r.description ≠ ""))) := by
      refine List.map_congr_left fun k hk => ?_
      have hkd := List.of_mem_filter hk
      have hk1 : k.1 ≠ "" := of_decide_eq_true hkd
      refine (groupQty_filter combined _ k fun r hr => ?_).symm
      refine decide_eq_true ?_
      have : r.description = k.1 := congrArg Prod.fst hr
      rw [this]
      exact hk1
    rw [h3]
    refine sum_groupQty_of_cover _ _
      (List.Nodup.filter _ (nodup_groupKeys combined)) ?_
    intro r hr
    have hrc : r ∈ combined := List.mem_of_mem_filter hr
    have hrd := List.of_mem_filter hr
    exact List.mem_filter.mpr
      ⟨mem_groupKeys.mpr (List.mem_map_of_mem key hrc), hrd⟩

/-- `find?` returns the element at the earliest index satisfying the
predicate. -/
theorem find?_eq_some_of_earliest {α : Type} (p : α → Bool) :
    ∀ (l : List α) (i : Fin l.length),
      p (l.get i) = true →
      (∀ j : Fin l.length, (j : Nat) < (i : Nat) → p (l.get j) = false) →
      l.find? p = some (l.get i)
  | [], i, _, _ => absurd i.isLt (Nat.not_lt_zero _)
  | x :: _, ⟨0, _⟩, hp, _ => by
    rw [List.find?_cons, show p x = true from hp]
    rfl
  | x :: xs, ⟨n + 1, hn⟩, hp, hfirst => by
    have hx : p x = false := hfirst ⟨0, Nat.succ_pos _⟩ (Nat.succ_pos n)
    rw [List.find?_cons, hx]
    exact find?_eq_some_of_earliest p xs ⟨n, Nat.lt_of_succ_lt_succ hn⟩ hp
      fun j hj => hfirst ⟨j.1 + 1, Nat.succ_lt_succ j.2⟩ (Nat.succ_lt_succ hj)

/-! ## Facts needed for idempotence -/

/-- When no key repeats, `groupKeys` is exactly the key list. -/
theorem groupKeys_of_nodup {l : List Row} (h : (l.map key).Nodup) :
    groupKeys l = l.map key := by
  induction l with
  | nil => rfl
  | cons r rs ih =>
    rw [List.map_cons] at h
    rcases List.nodup_cons.mp h with ⟨h1, h2⟩
    show key r :: (groupKeys rs).filter (fun k => decide (k ≠ key r))
      = key r :: rs.map key
    rw [ih h2]
    congr 1
    refine List.filter_eq_self.mpr fun k hk => decide_eq_true ?_
    exact fun he => h1 (he ▸ hk)

/-- When no key repeats, re-aggregating rebuilds each row unchanged. -/
theorem buildRow_self {l : List Row} (h : (l.map key).Nodup) :
    ∀ r ∈ l, buildRow l (key r) = r := by
  induction l with
  | nil => exact fun r hr => absurd hr (List.not_mem_nil r)
  | cons x xs ih =>
    rw [List.map_cons] at h
    rcases List.nodup_cons.mp h with ⟨h1, h2⟩
    intro r hr
    rcases List.mem_cons.mp hr with rfl | hr2
    · have hq : groupQty (r :: xs) (key r) = r.qty := by
        rw [groupQty_cons, if_pos rfl, groupQty_eq_zero_of_not_mem h1, add_zero]
      have hf : firstPart (r :: xs) (key r) = r.partNumber := by
        simp [firstPart, List.find?_cons]
      rw [show buildRow (r :: xs) (key r)
          = ⟨firstPart (r :: xs) (key r), r.description, r.length,
             groupQty (r :: xs) (key r)⟩ from rfl, hq, hf]
    · have hne : key r ≠ key x :=
        fun he => h1 (he ▸ List.mem_map_of_mem key hr2)
      have hdec : decide (key x = key r) = false :=
        decide_eq_false fun he => hne he.symm
      have hq : groupQty (x :: xs) (key r) = groupQty xs (key r) := by
        rw [groupQty_cons, if_neg (fun he => hne he.symm), zero_add]
      have hf : firstPart (x :: xs) (key r) = firstPart xs (key r) := by
        simp [firstPart, List.find?_cons, hdec]
      have hb : buildRow (x :: xs) (key r) = buildRow xs (key r) := by
        unfold buildRow
        rw [hq, hf]
      rw [hb]
      exact ih h2 r hr2

/-- Re-running the aggregation on a table with distinct, sorted,
non-blank-description keys changes nothing. -/
theorem mergedRows_eq_self {l : List Row} (hnd : (l.map key).Nodup)
    (hs : List.Sorted rowLE l) (hd : ∀ m ∈ l, m.description ≠ "") :
    mergedRows l = l := by
  unfold mergedRows
  have hmap : l.map (buildRow l ∘ key) = l.map id :=
    List.map_congr_left fun r hr => buildRow_self hnd r hr
  rw [groupKeys_of_nodup hnd, List.map_map, hmap, List.map_id,
    List.filter_eq_self.mpr fun m hm => decide_eq_true (hd m hm)]
  exact List.Sorted.insertionSort_eq hs

/-- Stripping a string made of whitespace leaves the empty string. -/
theorem pyStrip_eq_empty {s : String}
    (h : ∀ c ∈ s.data, c.isWhitespace = true) : pyStrip s = "" := by
  unfold pyStrip
  rw [List.dropWhile_eq_nil_iff.mpr h]
  rfl

/-! ## The claims -/

theorem merged_quantity_conservation_witness :
    exMergedBracket ∈ mergedRows exCombined
    ∧ exMergedBracket.qty = groupQty exCombined (key exMergedBracket) :=
  ⟨by decide,
   (merged_quantity_conservation exCombined).1 exMergedBracket (by decide)⟩

/-- C2: for every merged row `m`, the part number of `m` is the part number
of the Combined-Table row at the earliest position whose
(description, length) pair matches the key of `m`. -/
theorem merged_part_number_first_wins (combined : List Row) :
    ∀ m ∈ mergedRows combined, ∀ i : Fin combined.length,
      key (combined.get i) = key m →
      (∀ j : Fin combined.length, (j : Nat) < (i : Nat) →
        key (combined.get j) ≠ key m) →
      m.partNumber = (combined.get i).partNumber := by
  intro m hm i hi hfirst
  rcases mem_mergedRows.mp hm with ⟨k, _, rfl⟩
  rw [key_buildRow] at hi hfirst
  have hsome : combined.find? (fun r => decide (key r = k))
      = some (combined.get i) :=
    find?_eq_some_of_earliest _ combined i (decide_eq_true hi)
      fun j hj => decide_eq_false (hfirst j hj)
  show firstPart combined k = (combined.get i).partNumber
  rw [firstPart, hsome]

theorem merged_part_number_first_wins_witness :
    exMergedBracket.partNumber
      = (exCombined.get ⟨0, by decide⟩).partNumber :=
  merged_part_number_first_wins exCombined exMergedBracket (by decide)
    ⟨0, by decide⟩ (by decide) (by decide)

/-- C3: the merged output is sorted ascending by the (description, length)
pair and no two of its rows share that pair. -/
theorem merged_sorted_and_distinct (combined : List Row) :
    List.Sorted keyLE ((mergedRows combined).map key)
    ∧ ((mergedRows combined).map key).Nodup :=
  ⟨List.pairwise_map.mpr (sorted_mergedRows combined),
   nodup_map_key_mergedRows combined⟩

theorem merged_sorted_and_distinct_witness :
    List.Sorted keyLE ((mergedRows exCombined).map key)
    ∧ ((mergedRows exCombined).map key).Nodup :=
  merged_sorted_and_distinct exCombined

/-- C4: no merged row has an empty description, and normalization maps an
absent or whitespace-only description to the empty string. -/
theorem merged_excludes_blank_description (combined : List Row) :
    (∀ m ∈ mergedRows combined, m.description ≠ "")
    ∧ (∀ raw : RawRow,
        (raw.description = none
          ∨ ∀ c ∈ (raw.description.getD "").data, c.isWhitespace = true) →
        (normalizeRow raw).description = "") := by
  refine ⟨fun m hm => desc_ne_of_mem_mergedRows hm, fun raw h => ?_⟩
  show pyStrip (raw.description.getD "") = ""
  rcases h with h | h
  · rw [h]
    rfl
  · exact pyStrip_eq_empty h

theorem merged_excludes_blank_description_witness :
    exMergedBracket ∈ mergedRows exCombined
    ∧ exMergedBracket.description ≠ ""
    ∧ (normalizeRow exRawBlankDesc).description = "" :=
  ⟨by decide,
   (merged_excludes_blank_description exCombined).1 exMergedBracket (by decide),
   (merged_excludes_blank_description exCombined).2 exRawBlankDesc
     (Or.inr (by decide))⟩

/-- C5: the aggregation pipeline is idempotent — applying it to its own
output returns that output unchanged. -/
theorem merge_idempotent (combined : List Row) :
    mergedRows (mergedRows combined) = mergedRows combined :=
  mergedRows_eq_self (nodup_map_key_mergedRows combined)
    (sorted_mergedRows combined)
    fun _ hm => desc_ne_of_mem_mergedRows hm

theorem merge_idempotent_witness :
    mergedRows (mergedRows exCombined) = mergedRows exCombined :=
  merge_idempotent exCombined

/-- C6: a missing or non-numeric QTY. cell normalizes to 0, and the error
status of the per-file step does not depend on the QTY. cells at all (so a
non-numeric quantity never makes a file fail). -/
theorem unparseable_qty_becomes_zero :
    (∀ raw : RawRow,
      (raw.qty = RawQty.missing ∨ ∃ s, raw.qty = RawQty.nonNumeric s) →
      (normalizeRow raw).qty = 0)
    ∧ ∀ (f : RawFile) (q : RawQty),
        (processFile (withQty q f)).2 = (processFile f).2 := by
  constructor
  · intro raw h
    rcases h with h | ⟨s, h⟩ <;> simp [normalizeRow, h]
  · intro f q
    rcases f with ⟨n, fr, h1, h2, h3, h4, h5⟩
    cases fr with
    | none => rfl
    | some raws =>
      by_cases hc : (h1 && h2 && h3 && h4) = true <;>
        simp [processFile, withQty, hc]

theorem unparseable_qty_becomes_zero_witness :
    (normalizeRow exRawMissingQty).qty = 0
    ∧ (processFile (withQty (RawQty.nonNumeric "N/A") exFileOk)).2
        = (processFile exFileOk).2 :=
  ⟨unparseable_qty_becomes_zero.1 exRawMissingQty (Or.inl rfl),
   unparseable_qty_becomes_zero.2 exFileOk (RawQty.nonNumeric "N/A")⟩

/-- C7 (code evaluated at the failing input): a file whose first read and
cleaning succeed but whose display re-read raises is recorded in
`error_files`, yet its rows were already appended to `all_dataframes` and
do appear in the merged output — contradicting the claim that a file
recorded as failed contributes no rows. -/
theorem error_file_rows_still_merged :
    (processFiles [exFileDisplayCrash]).2 = ["boards.xlsx"]
    ∧ runPipeline [exFileDisplayCrash]
        = (some [⟨"P1", "Bracket", "10", 5⟩], ["boards.xlsx"]) := by
  decide

/-- C8: if no file normalizes successfully the merge is not attempted and no
output artifact is produced, and zero uploaded files produce no output. -/
theorem no_data_no_output :
    (∀ files : List RawFile,
      (processFiles files).1 = [] → (runPipeline files).1 = none)
    ∧ runPipeline [] = (none, []) := by
  refine ⟨fun files h => ?_, rfl⟩
  simp [runPipeline, h]

theorem no_data_no_output_witness :
    (runPipeline [exFileUnreadable]).1 = none :=
  no_data_no_output.1 [exFileUnreadable] (by decide)

/-- C9: after normalization the description and length of every row are
(non-null) strings: an absent cell becomes the empty string, and every
table the per-file step emits is the row-wise normalization of the raw
rows the file was read into. -/
theorem normalization_fills_nulls :
    (∀ raw : RawRow, raw.description = none →
      (normalizeRow raw).description = "")
    ∧ (∀ raw : RawRow, raw.length = none → (normalizeRow raw).length = "")
    ∧ ∀ (f : RawFile) (rows : List Row), (processFile f).1 = some rows →
        ∃ raws, f.firstRead = some raws ∧ rows = raws.map normalizeRow := by
  refine ⟨fun raw h => ?_, fun raw h => ?_, fun f rows h => ?_⟩
  · show pyStrip (raw.description.getD "") = ""
    rw [h]
    rfl
  · show raw.length.getD "" = ""
    rw [h]
    rfl
  · rcases f with ⟨n, fr, h1, h2, h3, h4, h5⟩
    cases fr with
    | none => simp [processFile] at h
    | some raws =>
      by_cases hc : (h1 && h2 && h3 && h4) = true
      · refine ⟨raws, rfl, ?_⟩
        simp [processFile, hc] at h
        exact h.symm
      · simp [processFile, hc] at h

theorem normalization_fills_nulls_witness :
    (normalizeRow exRawAllNone).description = ""
    ∧ (normalizeRow exRawAllNone).length = "" :=
  ⟨normalization_fills_nulls.1 exRawAllNone rfl,
   normalization_fills_nulls.2.1 exRawAllNone rfl⟩

/-- C10: part numbers are strings after normalization and a missing part
number becomes the literal string "nan", which can then surface as the
part_number of a merged output row. -/
theorem missing_part_number_becomes_nan :
    (∀ raw : RawRow, raw.partNumber = none →
      (normalizeRow raw).partNumber = "nan")
    ∧ (mergedRows [normalizeRow exRawNoPart]).map Row.partNumber = ["nan"] := by
  constructor
  · intro raw h
    show pyStrip (match raw.partNumber with
      | none => "nan"
      | some s => s) = "nan"
    rw [h]
    rfl
  · decide

theorem missing_part_number_becomes_nan_witness :
    (normalizeRow exRawNoPart).partNumber = "nan" :=
  missing_part_number_becomes_nan.1 exRawNoPart rfl

end BOM
